import Mathlib

/-!
A shallow embedding of the bitbucket-mcp server (src/dist/index.js).

HTTP interactions are modelled by environments: a record of the responses the
Bitbucket API would give, passed explicitly to each operation.  Every
operation returns the list of requests it issued together with its result
(`Except McpErr _` models the thrown `McpError`s).  Strings that the code
builds by template interpolation are modelled by `String.append`; an
`undefined` JavaScript value interpolated into a template literal becomes the
string "undefined".  The `updated_on` field is modelled as the integer
timestamp `new Date(pr.updated_on).getTime()` evaluates to.
-/

namespace BitbucketMcp

/-- MCP error kinds used by the server: `ErrorCode.InvalidParams` and
`ErrorCode.InternalError`, with their message. -/
inductive McpErr where
  | invalidParams (msg : String)
  | internalError (msg : String)
deriving Repr, DecidableEq

/-- A participant of a pull request, as inspected by `getPendingReviewPRs`:
`participant.user?.nickname`, `participant.role`, `participant.approved`.
Each field may be absent in the JSON payload, hence `Option`. -/
structure Participant where
  nickname : Option String
  role : Option String
  approved : Option Bool
deriving Repr, DecidableEq

/-- The fields of a pull request that the aggregator reads. `participants`
is `none` when the payload has no participants array. -/
structure PullRequest where
  id : Nat
  updated_on : Int
  participants : Option (List Participant)
deriving Repr, DecidableEq

/-- A pull request tagged with its repository: the spread of `pr` plus the
`repository` object with `name` and `full_name` added by the aggregator. -/
structure TaggedPR where
  pr : PullRequest
  repoName : String
  repoFullName : String
deriving Repr, DecidableEq

/-- The predicate of the `find` callback at index.js:1977-1979:
`participant.user?.nickname === currentUserNickname && participant.role ===
'REVIEWER' && participant.approved === false`. -/
def isPendingReviewer (u : String) (p : Participant) : Bool :=
  p.nickname == some u && p.role == some "REVIEWER" && p.approved == some false

/-- The `filter` callback at index.js:1966-1982: a pull request is kept iff it
has a participants array containing a pending reviewer for user `u`. -/
def isPendingForUser (u : String) (pr : PullRequest) : Bool :=
  match pr.participants with
  | none => false
  | some ps => ps.any (isPendingReviewer u)

/-- Insert one element into a list that is sorted by descending
`updated_on`. -/
def insertDesc (x : TaggedPR) : List TaggedPR → List TaggedPR
  | [] => [x]
  | y :: ys =>
      if y.pr.updated_on ≤ x.pr.updated_on then x :: y :: ys
      else y :: insertDesc x ys

/-- The sort at index.js:2015:
`.sort((a, b) => new Date(b.updated_on).getTime() - new Date(a.updated_on).getTime())`,
i.e. sorting by descending `updated_on`. -/
def sortByUpdatedDesc : List TaggedPR → List TaggedPR
  | [] => []
  | x :: xs => insertDesc x (sortByUpdatedDesc xs)

theorem insertDesc_perm (x : TaggedPR) (l : List TaggedPR) :
    List.Perm (insertDesc x l) (x :: l) := by
  induction l with
  | nil => simp [insertDesc]
  | cons y ys ih =>
      simp only [insertDesc]
      split
      · exact List.Perm.refl _
      · exact (ih.cons y).trans (List.Perm.swap x y ys)

theorem sortByUpdatedDesc_perm (l : List TaggedPR) :
    List.Perm (sortByUpdatedDesc l) l := by
  induction l with
  | nil => simp [sortByUpdatedDesc]
  | cons x xs ih => exact ((insertDesc_perm x _).trans (ih.cons x))

theorem length_sortByUpdatedDesc (l : List TaggedPR) :
    (sortByUpdatedDesc l).length = l.length :=
  (sortByUpdatedDesc_perm l).length_eq

theorem mem_sortByUpdatedDesc {a : TaggedPR} {l : List TaggedPR} :
    a ∈ sortByUpdatedDesc l ↔ a ∈ l :=
  (sortByUpdatedDesc_perm l).mem_iff

/-- Descending order on tagged pull requests: the later-updated one first. -/
def updGe (a b : TaggedPR) : Prop := b.pr.updated_on ≤ a.pr.updated_on

theorem insertDesc_pairwise {x : TaggedPR} {l : List TaggedPR}
    (h : l.Pairwise updGe) : (insertDesc x l).Pairwise updGe := by
  induction l with
  | nil => simp [insertDesc, updGe]
  | cons y ys ih =>
      rw [List.pairwise_cons] at h
      simp only [insertDesc]
      split
      · rename_i hle
        rw [List.pairwise_cons]
        constructor
        · intro b hb
          rcases List.mem_cons.mp hb with hb | hb
          · subst hb; exact hle
          · exact le_trans (h.1 b hb) hle
        · exact List.pairwise_cons.mpr h
      · rename_i hgt
        push_neg at hgt
        rw [List.pairwise_cons]
        constructor
        · intro b hb
          have hb' := (insertDesc_perm x ys).mem_iff.mp hb
          rcases List.mem_cons.mp hb' with hb' | hb'
          · subst hb'; exact le_of_lt hgt
          · exact h.1 b hb'
        · exact ih h.2

theorem sortByUpdatedDesc_pairwise (l : List TaggedPR) :
    (sortByUpdatedDesc l).Pairwise updGe := by
  induction l with
  | nil => simp [sortByUpdatedDesc]
  | cons x xs ih => exact insertDesc_pairwise ih

/-- JavaScript truthiness of an optional string: `undefined` and the empty
string are falsy. -/
def jsTruthy : Option String → Bool
  | none => false
  | some s => !(s == "")

/-- The JavaScript expression `a || b` on optional strings. -/
def jsOr (a b : Option String) : Option String :=
  if jsTruthy a then a else b

/-- The server configuration fields the aggregator reads:
`this.config.username` and `this.config.defaultWorkspace`. -/
structure Config where
  username : Option String
  defaultWorkspace : Option String
deriving Repr, DecidableEq

/-- The HTTP GET requests `getPendingReviewPRs` can issue: the workspace
repository listing (with its `pagelen` param) and the per-repository open
pull request listing (with its `pagelen` param). -/
inductive AggRequest where
  | listRepositories (workspace : String) (pagelen : Nat)
  | listPullRequests (workspace : String) (repoSlug : String) (pagelen : Nat)
deriving Repr, DecidableEq

/-- The upstream responses for one invocation of `getPendingReviewPRs`:
`reposValues` is the `data.values` of the workspace listing (`Except` for a
failed request, `none` for a payload without `values`); `prsResponse r` is
the same for repository `r`'s pull request listing. -/
structure AggEnv where
  reposValues : Except String (Option (List String))
  prsResponse : String → Except String (Option (List PullRequest))

/-- What one repository contributes to `pendingPRs` (index.js:1951-1995):
on a fetch error or a payload without `values` it contributes `[]`
(the catch at 1992 and the check at 1962); otherwise the pull requests
passing the pending-reviewer filter, each tagged with the repository. -/
def repoContribution (env : AggEnv) (u wsName repoSlug : String) : List TaggedPR :=
  match env.prsResponse repoSlug with
  | .error _ => []
  | .ok none => []
  | .ok (some prs) =>
      (prs.filter (isPendingForUser u)).map fun pr =>
        { pr := pr, repoName := repoSlug, repoFullName := wsName ++ "/" ++ repoSlug }

/-- The batching loop header at index.js:1948-1949: slices of size
`batchSize = 5`.  Written by structural recursion; `batchesOf5_eq` states
the take/drop slicing form of the loop. -/
def batchesOf5 : List String → List (List String)
  | [] => []
  | [a] => [[a]]
  | [a, b] => [[a, b]]
  | [a, b, c] => [[a, b, c]]
  | [a, b, c, d] => [[a, b, c, d]]
  | a :: b :: c :: d :: e :: rest => [a, b, c, d, e] :: batchesOf5 rest

theorem batchesOf5_eq (l : List String) :
    batchesOf5 l = if l = [] then [] else l.take 5 :: batchesOf5 (l.drop 5) := by
  match l with
  | [] => rfl
  | [a] => rfl
  | [a, b] => rfl
  | [a, b, c] => rfl
  | [a, b, c, d] => rfl
  | a :: b :: c :: d :: e :: rest => rfl

/-- The flattening loop at index.js:2000-2006: push each repository's
result list onto the accumulator, stopping once the accumulator has reached
`limit` entries. -/
def flattenBatch (limit : Nat) (acc : List TaggedPR) :
    List (List TaggedPR) → List TaggedPR
  | [] => acc
  | r :: rs =>
      let acc' := acc ++ r
      if limit ≤ acc'.length then acc' else flattenBatch limit acc' rs

/-- The batch loop at index.js:1948-2011: for each batch, issue one pull
request listing per repository (with `pagelen = min limit 50`), flatten the
batch results, and stop once `limit` entries have accumulated.  Returns the
accumulated pull requests and the request trace. -/
def processBatches (env : AggEnv) (u wsName : String) (limit : Nat) :
    List (List String) → List TaggedPR → List AggRequest →
      List TaggedPR × List AggRequest
  | [], acc, trace => (acc, trace)
  | batch :: rest, acc, trace =>
      let trace' := trace ++ batch.map fun r =>
        AggRequest.listPullRequests wsName r (min limit 50)
      let acc' := flattenBatch limit acc (batch.map (repoContribution env u wsName))
      if limit ≤ acc'.length then (acc', trace')
      else processBatches env u wsName limit rest acc' trace'

/-- The result object serialized at index.js:2021-2027. -/
structure AggResult where
  pending_review_prs : List TaggedPR
  total_found : Nat
  searched_repositories : Nat
  user : String
  workspace : String
deriving Repr, DecidableEq

/-- The scan over a resolved repository list: batches, accumulation, the
final `.slice(0, limit)` and the sort by descending `updated_on`
(index.js:1945-2030). -/
def runScan (env : AggEnv) (u wsName : String) (limit : Nat)
    (repos : List String) (trace0 : List AggRequest) :
    List AggRequest × Except McpErr AggResult :=
  let scanned := processBatches env u wsName limit (batchesOf5 repos) [] trace0
  let finalResults := sortByUpdatedDesc (scanned.1.take limit)
  (scanned.2,
   .ok { pending_review_prs := finalResults,
         total_found := finalResults.length,
         searched_repositories := repos.length,
         user := u,
         workspace := wsName })

/-- The workspace-listing branch at index.js:1933-1943: fetch up to 100
repositories, fail if the fetch fails or the payload has no `values`,
otherwise scan the returned repository names.  Errors are wrapped by the
outer catch at index.js:2032-2034. -/
def fetchAndScan (env : AggEnv) (u wsName : String) (limit : Nat) :
    List AggRequest × Except McpErr AggResult :=
  let req := AggRequest.listRepositories wsName 100
  match env.reposValues with
  | .error e =>
      ([req], .error (.internalError ("Failed to get pending review PRs: " ++ e)))
  | .ok none =>
      ([req], .error (.internalError
        "Failed to get pending review PRs: Failed to fetch repositories"))
  | .ok (some names) => runScan env u wsName limit names [req]

/-- The scope resolution at index.js:1927-1944: a supplied non-empty
`repositoryList` is scanned as is (the check is `repositoryList &&
repositoryList.length > 0`); otherwise the workspace listing is fetched. -/
def scanScope (env : AggEnv) (u wsName : String) (limit : Nat) :
    Option (List String) → List AggRequest × Except McpErr AggResult
  | some l =>
      if 0 < l.length then runScan env u wsName limit l []
      else fetchAndScan env u wsName limit
  | none => fetchAndScan env u wsName limit

/-- `getPendingReviewPRs(workspace, limit, repositoryList)`
(index.js:1911-2036).  The `InvalidParams` errors thrown at 1915 and 1919
are caught by the outer catch at 2032 and re-thrown as `InternalError`
with a wrapped message, which we reflect here. -/
def getPendingReviewPRs (env : AggEnv) (cfg : Config) (workspace : Option String)
    (limit : Nat) (repositoryList : Option (List String)) :
    List AggRequest × Except McpErr AggResult :=
  if jsTruthy (jsOr workspace cfg.defaultWorkspace) then
    if jsTruthy cfg.username then
      scanScope env (cfg.username.getD "")
        ((jsOr workspace cfg.defaultWorkspace).getD "") limit repositoryList
    else
      ([], .error (.internalError
        ("Failed to get pending review PRs: " ++
         "Username must be provided through BITBUCKET_USERNAME environment variable")))
  else
    ([], .error (.internalError
      ("Failed to get pending review PRs: " ++
       "Workspace must be provided either as a parameter or through BITBUCKET_WORKSPACE environment variable")))

/-- The tool dispatch at index.js:1028-1029 combined with the parameter
default `limit = 50` at index.js:1911: an absent `limit` argument becomes
50. -/
def getPendingReviewPRsTool (env : AggEnv) (cfg : Config)
    (workspace : Option String) (limit : Option Nat)
    (repositoryList : Option (List String)) :
    List AggRequest × Except McpErr AggResult :=
  getPendingReviewPRs env cfg workspace (limit.getD 50) repositoryList

theorem isPendingForUser_iff {u : String} {pr : PullRequest} :
    isPendingForUser u pr = true ↔
      ∃ ps, pr.participants = some ps ∧ ∃ p ∈ ps,
        p.nickname = some u ∧ p.role = some "REVIEWER" ∧ p.approved = some false := by
  unfold isPendingForUser isPendingReviewer
  cases hp : pr.participants with
  | none => simp
  | some ps => simp [List.any_eq_true, Bool.and_eq_true, beq_iff_eq, and_assoc]

theorem mem_repoContribution {env : AggEnv} {u wsName repoSlug : String} {x : TaggedPR}
    (hx : x ∈ repoContribution env u wsName repoSlug) :
    isPendingForUser u x.pr = true := by
  unfold repoContribution at hx
  split at hx
  · simp at hx
  · simp at hx
  · simp only [List.mem_map] at hx
    obtain ⟨pr, hpr, rfl⟩ := hx
    exact (List.mem_filter.mp hpr).2

theorem mem_flattenBatch {limit : Nat} {x : TaggedPR} :
    ∀ {rs : List (List TaggedPR)} {acc : List TaggedPR},
      x ∈ flattenBatch limit acc rs → x ∈ acc ∨ ∃ r ∈ rs, x ∈ r := by
  intro rs
  induction rs with
  | nil => intro acc h; exact .inl h
  | cons r rs ih =>
      intro acc h
      simp only [flattenBatch] at h
      split at h
      · rcases List.mem_append.mp h with h | h
        · exact .inl h
        · exact .inr ⟨r, by simp, h⟩
      · rcases ih h with h | ⟨s, hs, hxs⟩
        · rcases List.mem_append.mp h with h | h
          · exact .inl h
          · exact .inr ⟨r, by simp, h⟩
        · exact .inr ⟨s, by simp [hs], hxs⟩

theorem mem_processBatches {env : AggEnv} {u wsName : String} {limit : Nat} {x : TaggedPR} :
    ∀ {bs : List (List String)} {acc : List TaggedPR} {trace : List AggRequest},
      x ∈ (processBatches env u wsName limit bs acc trace).1 →
        x ∈ acc ∨ isPendingForUser u x.pr = true := by
  intro bs
  induction bs with
  | nil => intro acc trace h; exact .inl h
  | cons batch rest ih =>
      intro acc trace h
      simp only [processBatches] at h
      split at h
      · rcases mem_flattenBatch h with h | ⟨r, hr, hxr⟩
        · exact .inl h
        · obtain ⟨slug, -, rfl⟩ := List.mem_map.mp hr
          exact .inr (mem_repoContribution hxr)
      · rcases ih h with h | h
        · rcases mem_flattenBatch h with h | ⟨r, hr, hxr⟩
          · exact .inl h
          · obtain ⟨slug, -, rfl⟩ := List.mem_map.mp hr
            exact .inr (mem_repoContribution hxr)
        · exact .inr h

theorem runScan_ok {env : AggEnv} {u wsName : String} {limit : Nat}
    {repos : List String} {trace0 : List AggRequest} {r : AggResult}
    (h : (runScan env u wsName limit repos trace0).2 = .ok r) :
    r.pending_review_prs = sortByUpdatedDesc
      ((processBatches env u wsName limit (batchesOf5 repos) [] trace0).1.take limit) := by
  simp only [runScan] at h
  cases h
  rfl

theorem runScan_length {env : AggEnv} {u wsName : String} {limit : Nat}
    {repos : List String} {trace0 : List AggRequest} {r : AggResult}
    (h : (runScan env u wsName limit repos trace0).2 = .ok r) :
    r.pending_review_prs.length ≤ limit := by
  rw [runScan_ok h, length_sortByUpdatedDesc]
  simp [List.length_take]

theorem runScan_mem {env : AggEnv} {u wsName : String} {limit : Nat}
    {repos : List String} {trace0 : List AggRequest} {r : AggResult}
    (h : (runScan env u wsName limit repos trace0).2 = .ok r) :
    ∀ x ∈ r.pending_review_prs, isPendingForUser u x.pr = true := by
  intro x hx
  rw [runScan_ok h, mem_sortByUpdatedDesc] at hx
  rcases mem_processBatches (List.mem_of_mem_take hx) with h0 | hp
  · simp at h0
  · exact hp

theorem runScan_sorted {env : AggEnv} {u wsName : String} {limit : Nat}
    {repos : List String} {trace0 : List AggRequest} {r : AggResult}
    (h : (runScan env u wsName limit repos trace0).2 = .ok r) :
    r.pending_review_prs.Pairwise updGe := by
  rw [runScan_ok h]
  exact sortByUpdatedDesc_pairwise _

theorem fetchAndScan_ok_shape {env : AggEnv} {u wsName : String} {limit : Nat} {r : AggResult}
    (h : (fetchAndScan env u wsName limit).2 = .ok r) :
    ∃ repos trace0, (runScan env u wsName limit repos trace0).2 = .ok r := by
  unfold fetchAndScan at h
  split at h
  · simp at h
  · simp at h
  · exact ⟨_, _, h⟩

theorem getPendingReviewPRs_ok_shape {env : AggEnv} {cfg : Config}
    {workspace : Option String} {limit : Nat} {repositoryList : Option (List String)}
    {r : AggResult}
    (h : (getPendingReviewPRs env cfg workspace limit repositoryList).2 = .ok r) :
    jsTruthy cfg.username = true ∧
    ∃ repos trace0,
      (runScan env (cfg.username.getD "") ((jsOr workspace cfg.defaultWorkspace).getD "")
        limit repos trace0).2 = .ok r := by
  unfold getPendingReviewPRs at h
  cases hws : jsTruthy (jsOr workspace cfg.defaultWorkspace) with
  | false => rw [hws] at h; simp at h
  | true =>
      rw [hws] at h
      cases hu : jsTruthy cfg.username with
      | false => rw [hu] at h; simp at h
      | true =>
          rw [hu] at h
          simp only [if_true] at h
          refine ⟨rfl, ?_⟩
          rcases repositoryList with _ | l
          · exact fetchAndScan_ok_shape h
          · simp only [scanScope] at h
            by_cases hl : 0 < l.length
            · rw [if_pos hl] at h
              exact ⟨_, _, h⟩
            · rw [if_neg hl] at h
              exact fetchAndScan_ok_shape h

/-- C1: for every limit N (defaulting to 50 when the argument is absent) and
every environment of per-repository responses, a successful
`getPendingReviewPRs` invocation returns at most N entries in
`pending_review_prs`. -/
theorem getPendingReviewPRs_at_most_limit
    (env : AggEnv) (cfg : Config) (workspace : Option String)
    (limit : Option Nat) (repositoryList : Option (List String)) (r : AggResult)
    (h : (getPendingReviewPRsTool env cfg workspace limit repositoryList).2 = .ok r) :
    r.pending_review_prs.length ≤ limit.getD 50 := by
  unfold getPendingReviewPRsTool at h
  obtain ⟨-, repos, trace0, hrun⟩ := getPendingReviewPRs_ok_shape h
  exact runScan_length hrun

/-- C2: every entry returned by `getPendingReviewPRs` has a participants
array containing at least one participant whose user nickname is the
configured username, whose role is REVIEWER, and whose approved flag is
false. -/
theorem getPendingReviewPRs_entries_have_pending_reviewer
    (env : AggEnv) (cfg : Config) (workspace : Option String)
    (limit : Option Nat) (repositoryList : Option (List String)) (r : AggResult)
    (h : (getPendingReviewPRsTool env cfg workspace limit repositoryList).2 = .ok r) :
    ∃ u, cfg.username = some u ∧
      ∀ x ∈ r.pending_review_prs, ∃ ps, x.pr.participants = some ps ∧
        ∃ p ∈ ps, p.nickname = some u ∧ p.role = some "REVIEWER" ∧
          p.approved = some false := by
  unfold getPendingReviewPRsTool at h
  obtain ⟨hu, repos, trace0, hrun⟩ := getPendingReviewPRs_ok_shape h
  refine ⟨cfg.username.getD "", ?_, ?_⟩
  · cases hc : cfg.username with
    | none => rw [hc] at hu; simp [jsTruthy] at hu
    | some u => simp [hc]
  · intro x hx
    exact isPendingForUser_iff.mp (runScan_mem hrun x hx)

/-- C4: the list returned by `getPendingReviewPRs` is sorted by `updated_on`
in descending order: every pair of adjacent entries a, b satisfies
`a.updated_on >= b.updated_on`. -/
theorem getPendingReviewPRs_sorted_desc
    (env : AggEnv) (cfg : Config) (workspace : Option String)
    (limit : Option Nat) (repositoryList : Option (List String)) (r : AggResult)
    (h : (getPendingReviewPRsTool env cfg workspace limit repositoryList).2 = .ok r) :
    List.Chain' (fun a b => b.pr.updated_on ≤ a.pr.updated_on) r.pending_review_prs := by
  unfold getPendingReviewPRsTool at h
  obtain ⟨-, repos, trace0, hrun⟩ := getPendingReviewPRs_ok_shape h
  exact (runScan_sorted hrun).chain'

/-- A participant fixture: a pending reviewer for user "alice". -/
def participantW : Participant := ⟨some "alice", some "REVIEWER", some false⟩

def prW : PullRequest := ⟨7, 100, some [participantW]⟩

def taggedW : TaggedPR := ⟨prW, "repo-a", "ws/repo-a"⟩

def cfgW : Config := ⟨some "alice", some "ws"⟩

def envW : AggEnv := ⟨.ok (some ["repo-a"]), fun _ => .ok (some [prW])⟩

def resultW : AggResult := ⟨[taggedW], 1, 1, "alice", "ws"⟩

theorem getPendingReviewPRs_at_most_limit_witness :
    resultW.pending_review_prs.length ≤ 50 :=
  getPendingReviewPRs_at_most_limit envW cfgW none none none resultW rfl

theorem getPendingReviewPRs_entries_have_pending_reviewer_witness :
    ∃ u, cfgW.username = some u ∧
      ∀ x ∈ resultW.pending_review_prs, ∃ ps, x.pr.participants = some ps ∧
        ∃ p ∈ ps, p.nickname = some u ∧ p.role = some "REVIEWER" ∧
          p.approved = some false :=
  getPendingReviewPRs_entries_have_pending_reviewer envW cfgW none none none resultW rfl

theorem getPendingReviewPRs_sorted_desc_witness :
    List.Chain' (fun a b => b.pr.updated_on ≤ a.pr.updated_on)
      resultW.pending_review_prs :=
  getPendingReviewPRs_sorted_desc envW cfgW none none none resultW rfl

/-- The environment in which repository `slug`'s pull request listing
returns an empty `values` array instead of whatever `env` gives. -/
def overrideEmpty (env : AggEnv) (slug : String) : AggEnv :=
  { env with prsResponse := fun s => if s = slug then .ok (some []) else env.prsResponse s }

theorem repoContribution_overrideEmpty {env : AggEnv} {slug e : String}
    (he : env.prsResponse slug = .error e) (u wsName : String) :
    repoContribution env u wsName = repoContribution (overrideEmpty env slug) u wsName := by
  funext s
  unfold repoContribution overrideEmpty
  by_cases hs : s = slug
  · subst hs
    rw [he]
    simp
  · simp [hs]

theorem processBatches_congr {env env' : AggEnv} {u wsName : String} {limit : Nat}
    (hc : repoContribution env u wsName = repoContribution env' u wsName) :
    ∀ (bs : List (List String)) (acc : List TaggedPR) (trace : List AggRequest),
      processBatches env u wsName limit bs acc trace =
        processBatches env' u wsName limit bs acc trace := by
  intro bs
  induction bs with
  | nil => intro acc trace; rfl
  | cons batch rest ih =>
      intro acc trace
      simp only [processBatches, hc]
      split
      · rfl
      · exact ih _ _

theorem runScan_congr {env env' : AggEnv} {u wsName : String}
    (hc : repoContribution env u wsName = repoContribution env' u wsName)
    (limit : Nat) (repos : List String) (trace0 : List AggRequest) :
    runScan env u wsName limit repos trace0 = runScan env' u wsName limit repos trace0 := by
  unfold runScan
  rw [processBatches_congr hc]

theorem fetchAndScan_congr {env env' : AggEnv} {u wsName : String}
    (hr : env.reposValues = env'.reposValues)
    (hc : repoContribution env u wsName = repoContribution env' u wsName)
    (limit : Nat) :
    fetchAndScan env u wsName limit = fetchAndScan env' u wsName limit := by
  unfold fetchAndScan
  rw [← hr]
  cases henv : env.reposValues with
  | error e => rfl
  | ok v =>
      cases v with
      | none => rfl
      | some names => exact runScan_congr hc _ _ _

theorem scanScope_some_pos {env : AggEnv} {u wsName : String} {limit : Nat}
    {l : List String} (hl : 0 < l.length) :
    scanScope env u wsName limit (some l) = runScan env u wsName limit l [] := by
  simp only [scanScope]
  rw [if_pos hl]

theorem scanScope_some_nil {env : AggEnv} {u wsName : String} {limit : Nat} :
    scanScope env u wsName limit (some []) = fetchAndScan env u wsName limit := rfl

theorem scanScope_none {env : AggEnv} {u wsName : String} {limit : Nat} :
    scanScope env u wsName limit none = fetchAndScan env u wsName limit := rfl

theorem scanScope_congr {env env' : AggEnv} {u wsName : String}
    (hr : env.reposValues = env'.reposValues)
    (hc : repoContribution env u wsName = repoContribution env' u wsName)
    (limit : Nat) (repositoryList : Option (List String)) :
    scanScope env u wsName limit repositoryList =
      scanScope env' u wsName limit repositoryList := by
  cases repositoryList with
  | none => exact fetchAndScan_congr hr hc _
  | some l =>
      simp only [scanScope]
      by_cases h0 : 0 < l.length
      · rw [if_pos h0, if_pos h0]
        exact runScan_congr hc _ _ _
      · rw [if_neg h0, if_neg h0]
        exact fetchAndScan_congr hr hc _

theorem getPendingReviewPRs_congr {env env' : AggEnv}
    (hr : env.reposValues = env'.reposValues)
    (hc : ∀ u wsName, repoContribution env u wsName = repoContribution env' u wsName)
    (cfg : Config) (workspace : Option String) (limit : Nat)
    (repositoryList : Option (List String)) :
    getPendingReviewPRs env cfg workspace limit repositoryList =
      getPendingReviewPRs env' cfg workspace limit repositoryList := by
  unfold getPendingReviewPRs
  split
  · split
    · exact scanScope_congr hr (hc _ _) _ _
    · rfl
  · rfl

theorem getPendingReviewPRs_guards_true {env : AggEnv} {cfg : Config}
    {workspace : Option String} {limit : Nat} {repositoryList : Option (List String)}
    (hws : jsTruthy (jsOr workspace cfg.defaultWorkspace) = true)
    (hu : jsTruthy cfg.username = true) :
    getPendingReviewPRs env cfg workspace limit repositoryList =
      scanScope env (cfg.username.getD "") ((jsOr workspace cfg.defaultWorkspace).getD "")
        limit repositoryList := by
  unfold getPendingReviewPRs
  simp [hws, hu]

/-- C5: a failure of the workspace repository-listing fetch fails the whole
operation with an error, whereas a failure of an individual repository's
pull-request fetch does not: the operation behaves exactly (same requests,
same result) as if that repository had returned an empty pull request list,
so the entries from the other repositories in scope are still returned. -/
theorem getPendingReviewPRs_failure_semantics :
    (∀ (env : AggEnv) (cfg : Config) (workspace : Option String) (limit : Nat)
       (repositoryList : Option (List String)) (e : String),
       (repositoryList = none ∨ repositoryList = some []) →
       env.reposValues = .error e →
       jsTruthy (jsOr workspace cfg.defaultWorkspace) = true →
       jsTruthy cfg.username = true →
       (getPendingReviewPRs env cfg workspace limit repositoryList).2 =
         .error (.internalError ("Failed to get pending review PRs: " ++ e))) ∧
    (∀ (env : AggEnv) (cfg : Config) (workspace : Option String) (limit : Nat)
       (repositoryList : Option (List String)) (slug e : String),
       env.prsResponse slug = .error e →
       getPendingReviewPRs env cfg workspace limit repositoryList =
         getPendingReviewPRs (overrideEmpty env slug) cfg workspace limit repositoryList) := by
  constructor
  · intro env cfg workspace limit repositoryList e hrl henv hws hu
    rcases hrl with rfl | rfl
    · rw [getPendingReviewPRs_guards_true hws hu, scanScope_none]
      unfold fetchAndScan
      rw [henv]
    · rw [getPendingReviewPRs_guards_true hws hu, scanScope_some_nil]
      unfold fetchAndScan
      rw [henv]
  · intro env cfg workspace limit repositoryList slug e he
    have hr : env.reposValues = (overrideEmpty env slug).reposValues := rfl
    exact getPendingReviewPRs_congr hr (repoContribution_overrideEmpty he) _ _ _ _

def envErrW : AggEnv := ⟨.error "boom", fun _ => .ok (some [prW])⟩

def envPrErrW : AggEnv := ⟨.ok (some ["repo-a"]), fun _ => .error "bad"⟩

theorem getPendingReviewPRs_failure_semantics_witness :
    (getPendingReviewPRs envErrW cfgW none 50 none).2 =
      .error (.internalError ("Failed to get pending review PRs: " ++ "boom")) ∧
    getPendingReviewPRs envPrErrW cfgW none 50 none =
      getPendingReviewPRs (overrideEmpty envPrErrW "repo-a") cfgW none 50 none :=
  ⟨getPendingReviewPRs_failure_semantics.1 envErrW cfgW none 50 none "boom"
      (.inl rfl) rfl rfl rfl,
   getPendingReviewPRs_failure_semantics.2 envPrErrW cfgW none 50 none "repo-a" "bad" rfl⟩

/-- Is a request the workspace repository-listing request? -/
def isListReposReq : AggRequest → Bool
  | .listRepositories _ _ => true
  | .listPullRequests _ _ _ => false

theorem filter_listPullRequests_map (wsName : String) (pl : Nat) (batch : List String)
    (trace : List AggRequest) :
    (trace ++ batch.map fun r => AggRequest.listPullRequests wsName r pl).filter isListReposReq
      = trace.filter isListReposReq := by
  rw [List.filter_append]
  have h : (batch.map fun r => AggRequest.listPullRequests wsName r pl).filter isListReposReq
      = [] := by
    induction batch with
    | nil => rfl
    | cons a l ih => simp [List.filter_cons, isListReposReq, ih]
  rw [h, List.append_nil]

theorem processBatches_trace_filter {env : AggEnv} {u wsName : String} {limit : Nat} :
    ∀ (bs : List (List String)) (acc : List TaggedPR) (trace : List AggRequest),
      ((processBatches env u wsName limit bs acc trace).2).filter isListReposReq =
        trace.filter isListReposReq := by
  intro bs
  induction bs with
  | nil => intro acc trace; rfl
  | cons batch rest ih =>
      intro acc trace
      simp only [processBatches]
      split
      · exact filter_listPullRequests_map _ _ _ _
      · rw [ih]
        exact filter_listPullRequests_map _ _ _ _

theorem runScan_trace_filter (env : AggEnv) (u wsName : String) (limit : Nat)
    (repos : List String) (trace0 : List AggRequest) :
    ((runScan env u wsName limit repos trace0).1).filter isListReposReq =
      trace0.filter isListReposReq := by
  unfold runScan
  exact processBatches_trace_filter _ _ _

theorem fetchAndScan_trace_filter (env : AggEnv) (u wsName : String) (limit : Nat) :
    ((fetchAndScan env u wsName limit).1).filter isListReposReq =
      [AggRequest.listRepositories wsName 100] := by
  unfold fetchAndScan
  cases henv : env.reposValues with
  | error e => rfl
  | ok v =>
      cases v with
      | none => rfl
      | some names =>
          rw [runScan_trace_filter]
          rfl

/-- C6: with a non-empty `repositoryList` the workspace-listing endpoint is
never requested; with `repositoryList` absent or empty (and resolvable
workspace and username), exactly one workspace-listing request is made,
asking for up to 100 repositories (`pagelen = 100`). -/
theorem getPendingReviewPRs_listing_request_policy :
    (∀ (env : AggEnv) (cfg : Config) (workspace : Option String) (limit : Nat)
       (l : List String), l ≠ [] →
       ((getPendingReviewPRs env cfg workspace limit (some l)).1).filter isListReposReq
         = []) ∧
    (∀ (env : AggEnv) (cfg : Config) (workspace : Option String) (limit : Nat)
       (repositoryList : Option (List String)),
       (repositoryList = none ∨ repositoryList = some []) →
       jsTruthy (jsOr workspace cfg.defaultWorkspace) = true →
       jsTruthy cfg.username = true →
       ((getPendingReviewPRs env cfg workspace limit repositoryList).1).filter isListReposReq
         = [AggRequest.listRepositories ((jsOr workspace cfg.defaultWorkspace).getD "") 100]) := by
  constructor
  · intro env cfg workspace limit l hl
    cases hws : jsTruthy (jsOr workspace cfg.defaultWorkspace) with
    | false =>
        unfold getPendingReviewPRs
        rw [hws]
        rfl
    | true =>
        cases hu : jsTruthy cfg.username with
        | false =>
            unfold getPendingReviewPRs
            rw [hws, hu]
            rfl
        | true =>
            rw [getPendingReviewPRs_guards_true hws hu,
              scanScope_some_pos (List.length_pos.mpr hl), runScan_trace_filter]
            rfl
  · intro env cfg workspace limit repositoryList hrl hws hu
    rcases hrl with rfl | rfl
    · rw [getPendingReviewPRs_guards_true hws hu, scanScope_none]
      exact fetchAndScan_trace_filter _ _ _ _
    · rw [getPendingReviewPRs_guards_true hws hu, scanScope_some_nil]
      exact fetchAndScan_trace_filter _ _ _ _

theorem getPendingReviewPRs_listing_request_policy_witness :
    ((getPendingReviewPRs envW cfgW none 50 (some ["repo-a"])).1).filter isListReposReq
      = [] ∧
    ((getPendingReviewPRs envW cfgW none 50 none).1).filter isListReposReq
      = [AggRequest.listRepositories "ws" 100] :=
  ⟨getPendingReviewPRs_listing_request_policy.1 envW cfgW none 50 ["repo-a"] (by simp),
   getPendingReviewPRs_listing_request_policy.2 envW cfgW none 50 none (.inl rfl) rfl rfl⟩

/-- JavaScript template interpolation of a possibly-undefined string: an
undefined value interpolates as "undefined". -/
def jsTemplate : Option String → String
  | none => "undefined"
  | some s => s

inductive HttpMethod where
  | get
  | post
  | put
deriving Repr, DecidableEq

structure HttpRequest where
  method : HttpMethod
  url : String
deriving Repr, DecidableEq

/-- Environment for single-request GET operations: the upstream response
per URL. -/
structure HttpEnv where
  resp : String → Except String String

/-- `getRepository(workspace, repo_slug)` (index.js:1093-1113) as dispatched
at index.js:976-977: the arguments come from `args` with no validation, are
interpolated into the URL template, and the GET request is always issued;
errors only arise from the upstream response. -/
def getRepository (env : HttpEnv) (workspace repo_slug : Option String) :
    List HttpRequest × Except McpErr String :=
  ([⟨.get, "/repositories/" ++ jsTemplate workspace ++ "/" ++ jsTemplate repo_slug⟩],
   match env.resp ("/repositories/" ++ jsTemplate workspace ++ "/" ++ jsTemplate repo_slug) with
   | .ok body => .ok body
   | .error e => .error (.internalError ("Failed to get repository: " ++ e)))

/-- C3: evaluated at the failing input (`repo_slug` absent), `getRepository`
issues the HTTP GET request, to /repositories/my-workspace/undefined, and
returns the upstream body: no InvalidParams error is raised before the HTTP
request, contrary to the claim. -/
theorem getRepository_missing_arg_issues_request :
    getRepository ⟨fun _ => .ok "body"⟩ (some "my-workspace") none =
      ([⟨.get, "/repositories/my-workspace/undefined"⟩], .ok "body") := rfl

/-- The pull request resource fields read by `getPullRequestDiff` at
index.js:1435-1436: `source.commit.hash` and `destination.commit.hash`. -/
structure PRCommits where
  sourceHash : String
  destHash : String
deriving Repr, DecidableEq

/-- The requests `getPullRequestDiff` issues: the pull request resource
fetch, then the diff fetch with its Accept header and `maxRedirects`
setting. -/
inductive DiffStep where
  | fetchPR (url : String)
  | fetchDiff (url : String) (accept : String) (maxRedirects : Nat)
deriving Repr, DecidableEq

structure DiffEnv where
  prResource : Except String PRCommits
  diffResp : String → Except String String

/-- The diff URL template at index.js:1439. -/
def diffUrl (workspace repo_slug : String) (pull_request_id : Nat)
    (sourceCommit destinationCommit : String) : String :=
  "/repositories/" ++ workspace ++ "/" ++ repo_slug ++ "/diff/" ++ workspace ++ "/" ++
    repo_slug ++ ":" ++ sourceCommit ++ "%0D" ++ destinationCommit ++
    "?from_pullrequest_id=" ++ toString pull_request_id ++ "&topic=true"

/-- `getPullRequestDiff` (index.js:1426-1465): fetch the pull request, build
the diff URL from the two commit hashes, request it with Accept text/plain
and maxRedirects 5, and return the body verbatim. -/
def getPullRequestDiff (env : DiffEnv) (workspace repo_slug : String)
    (pull_request_id : Nat) : List DiffStep × Except McpErr String :=
  match env.prResource with
  | .error e =>
      ([.fetchPR ("/repositories/" ++ workspace ++ "/" ++ repo_slug ++ "/pullrequests/" ++
          toString pull_request_id)],
       .error (.internalError ("Failed to get pull request diff: " ++ e)))
  | .ok commits =>
      ([.fetchPR ("/repositories/" ++ workspace ++ "/" ++ repo_slug ++ "/pullrequests/" ++
          toString pull_request_id),
        .fetchDiff (diffUrl workspace repo_slug pull_request_id commits.sourceHash
          commits.destHash) "text/plain" 5],
       match env.diffResp (diffUrl workspace repo_slug pull_request_id commits.sourceHash
          commits.destHash) with
       | .ok body => .ok body
       | .error e => .error (.internalError ("Failed to get pull request diff: " ++ e)))

/-- C7: when the fetched pull request resource carries source commit hash S
and destination commit hash D, the second request of getPullRequestDiff
goes to a URL that embeds S, D, and from_pullrequest_id=(the pull request
id), with an Accept text/plain header and up to 5 redirects; a successful
response body is returned verbatim as the result. -/
theorem getPullRequestDiff_second_request
    (env : DiffEnv) (workspace repo_slug : String) (pull_request_id : Nat)
    (S D : String) (hpr : env.prResource = .ok ⟨S, D⟩) :
    (∃ pre, (getPullRequestDiff env workspace repo_slug pull_request_id).1 =
        pre ++ [DiffStep.fetchDiff (diffUrl workspace repo_slug pull_request_id S D)
          "text/plain" 5]) ∧
    (∃ p q, diffUrl workspace repo_slug pull_request_id S D = p ++ S ++ q) ∧
    (∃ p q, diffUrl workspace repo_slug pull_request_id S D = p ++ D ++ q) ∧
    (∃ p q, diffUrl workspace repo_slug pull_request_id S D =
        p ++ ("?from_pullrequest_id=" ++ toString pull_request_id) ++ q) ∧
    (∀ body, env.diffResp (diffUrl workspace repo_slug pull_request_id S D) = .ok body →
        (getPullRequestDiff env workspace repo_slug pull_request_id).2 = .ok body) := by
  refine ⟨?_, ?_, ?_, ?_, ?_⟩
  · refine ⟨[.fetchPR ("/repositories/" ++ workspace ++ "/" ++ repo_slug ++
      "/pullrequests/" ++ toString pull_request_id)], ?_⟩
    unfold getPullRequestDiff
    rw [hpr]
    rfl
  · refine ⟨"/repositories/" ++ workspace ++ "/" ++ repo_slug ++ "/diff/" ++ workspace ++
      "/" ++ repo_slug ++ ":",
      "%0D" ++ D ++ "?from_pullrequest_id=" ++ toString pull_request_id ++ "&topic=true", ?_⟩
    simp [diffUrl, String.append_assoc]
  · refine ⟨"/repositories/" ++ workspace ++ "/" ++ repo_slug ++ "/diff/" ++ workspace ++
      "/" ++ repo_slug ++ ":" ++ S ++ "%0D",
      "?from_pullrequest_id=" ++ toString pull_request_id ++ "&topic=true", ?_⟩
    simp [diffUrl, String.append_assoc]
  · refine ⟨"/repositories/" ++ workspace ++ "/" ++ repo_slug ++ "/diff/" ++ workspace ++
      "/" ++ repo_slug ++ ":" ++ S ++ "%0D" ++ D, "&topic=true", ?_⟩
    simp [diffUrl, String.append_assoc]
  · intro body hbody
    unfold getPullRequestDiff
    rw [hpr]
    simp only []
    rw [hbody]

def diffEnvW : DiffEnv := ⟨.ok ⟨"abc123", "def456"⟩, fun _ => .ok "the-diff"⟩

theorem getPullRequestDiff_second_request_witness :
    (∃ pre, (getPullRequestDiff diffEnvW "w" "r" 42).1 =
        pre ++ [DiffStep.fetchDiff (diffUrl "w" "r" 42 "abc123" "def456")
          "text/plain" 5]) ∧
    (∃ p q, diffUrl "w" "r" 42 "abc123" "def456" = p ++ "abc123" ++ q) ∧
    (∃ p q, diffUrl "w" "r" 42 "abc123" "def456" = p ++ "def456" ++ q) ∧
    (∃ p q, diffUrl "w" "r" 42 "abc123" "def456" =
        p ++ ("?from_pullrequest_id=" ++ toString 42) ++ q) ∧
    (∀ body, diffEnvW.diffResp (diffUrl "w" "r" 42 "abc123" "def456") = .ok body →
        (getPullRequestDiff diffEnvW "w" "r" 42).2 = .ok body) :=
  getPullRequestDiff_second_request diffEnvW "w" "r" 42 "abc123" "def456" rfl

/-- The optional inline location of a comment: `path` plus optional `from`
and `to` line numbers (named `from_`/`to_` since `from` is reserved). -/
structure InlineArg where
  path : String
  from_ : Option Int
  to_ : Option Int
deriving Repr, DecidableEq

/-- The POST body built by `addPullRequestComment` (index.js:1501-1523):
`content.raw`, the `pending` flag when provided, and the `inline` object
when provided (with `from`/`to` only when defined). -/
structure CommentBody where
  contentRaw : String
  pending : Option Bool
  inline : Option InlineArg
deriving Repr, DecidableEq

structure CommentReq where
  url : String
  body : CommentBody
deriving Repr, DecidableEq

/-- Environment for the comment creation POST: the upstream response given
the posted body. -/
structure CommentEnv where
  postResp : CommentBody → Except String String

def commentsUrl (workspace repo_slug : String) (pull_request_id : Nat) : String :=
  "/repositories/" ++ workspace ++ "/" ++ repo_slug ++ "/pullrequests/" ++
    toString pull_request_id ++ "/comments"

/-- `addPullRequestComment` (index.js:1493-1543). -/
def addPullRequestComment (env : CommentEnv) (workspace repo_slug : String)
    (pull_request_id : Nat) (content : String) (inline : Option InlineArg)
    (pending : Option Bool) : List CommentReq × Except McpErr String :=
  ([⟨commentsUrl workspace repo_slug pull_request_id, ⟨content, pending, inline⟩⟩],
   match env.postResp ⟨content, pending, inline⟩ with
   | .ok data => .ok data
   | .error e => .error (.internalError ("Failed to add pull request comment: " ++ e)))

/-- The `error.message` a thrown `McpError` carries, as read by a
surrounding catch block. -/
def errMessage : McpErr → String
  | .invalidParams m => m
  | .internalError m => m

/-- `addPendingPullRequestComment` (index.js:1741-1762): delegates to
`addPullRequestComment` with `pending = true`; its own catch block at
1753-1761 re-wraps any error thrown by the inner call. -/
def addPendingPullRequestComment (env : CommentEnv) (workspace repo_slug : String)
    (pull_request_id : Nat) (content : String) (inline : Option InlineArg) :
    List CommentReq × Except McpErr String :=
  match addPullRequestComment env workspace repo_slug pull_request_id content inline
      (some true) with
  | (reqs, .ok data) => (reqs, .ok data)
  | (reqs, .error e) =>
      (reqs, .error (.internalError
        ("Failed to add pending pull request comment: " ++ errMessage e)))

def commentEnvErrW : CommentEnv := ⟨fun _ => .error "boom"⟩

/-- C10 counterexample: at a concrete input where the upstream POST fails,
`addPendingPullRequestComment` and `addPullRequestComment` with
`pending = true` return different results (the former re-wraps the error
message), so the two invocations are not identical. -/
theorem addPendingPullRequestComment_not_identical :
    ¬ (addPendingPullRequestComment commentEnvErrW "w" "r" 1 "hello" none =
        addPullRequestComment commentEnvErrW "w" "r" 1 "hello" none (some true)) := by
  intro h
  have h2 := congrArg (fun z => z.2) h
  simp [addPendingPullRequestComment, addPullRequestComment, commentEnvErrW,
    errMessage] at h2

/-- C10 (amended): for all arguments the two operations issue identical
HTTP requests, and whenever the upstream comment creation succeeds they
return identical results; only on upstream failure do they differ, with
`addPendingPullRequestComment` re-wrapping the error message. -/
theorem addPendingPullRequestComment_refines
    (env : CommentEnv) (workspace repo_slug : String) (pull_request_id : Nat)
    (content : String) (inline : Option InlineArg) :
    (addPendingPullRequestComment env workspace repo_slug pull_request_id
        content inline).1 =
      (addPullRequestComment env workspace repo_slug pull_request_id content inline
        (some true)).1 ∧
    (∀ data, env.postResp ⟨content, some true, inline⟩ = .ok data →
      addPendingPullRequestComment env workspace repo_slug pull_request_id
          content inline =
        addPullRequestComment env workspace repo_slug pull_request_id content inline
          (some true)) := by
  constructor
  · unfold addPendingPullRequestComment addPullRequestComment
    cases env.postResp ⟨content, some true, inline⟩ <;> rfl
  · intro data hdata
    unfold addPendingPullRequestComment addPullRequestComment
    rw [hdata]

def commentEnvOkW : CommentEnv := ⟨fun _ => .ok "created"⟩

theorem addPendingPullRequestComment_refines_witness :
    (addPendingPullRequestComment commentEnvOkW "w" "r" 1 "hello" none).1 =
      (addPullRequestComment commentEnvOkW "w" "r" 1 "hello" none (some true)).1 ∧
    addPendingPullRequestComment commentEnvOkW "w" "r" 1 "hello" none =
      addPullRequestComment commentEnvOkW "w" "r" 1 "hello" none (some true) :=
  ⟨(addPendingPullRequestComment_refines commentEnvOkW "w" "r" 1 "hello" none).1,
   (addPendingPullRequestComment_refines commentEnvOkW "w" "r" 1 "hello" none).2
     "created" rfl⟩

/-- A comment as read by `publishPendingComments`: its id, its `pending`
flag, its content and its inline object (forwarded opaquely). -/
structure Comment where
  id : Nat
  pending : Option Bool
  content : String
  inline : Option InlineArg
deriving Repr, DecidableEq

/-- The requests `publishPendingComments` can issue: the comment-listing
GET and the per-comment update PUT. -/
inductive PubRequest where
  | getComments (url : String)
  | putComment (url : String) (commentId : Nat)
deriving Repr, DecidableEq

/-- Environment for `publishPendingComments`: the `data.values` of the
comment listing, and the response to each comment-update PUT. -/
structure PublishEnv where
  commentsValues : Except String (Option (List Comment))
  putResp : Nat → Except String String

structure PublishItem where
  commentId : Nat
  published : Bool
  detail : String
deriving Repr, DecidableEq

/-- The result of `publishPendingComments`: either the no-op message
(index.js:1774-1783) or the itemized publication report
(index.js:1807-1817). -/
inductive PublishResult where
  | noneFound (text : String)
  | published (message : String) (results : List PublishItem)
deriving Repr, DecidableEq

def commentUrl (workspace repo_slug : String) (pull_request_id commentId : Nat) : String :=
  commentsUrl workspace repo_slug pull_request_id ++ "/" ++ toString commentId

/-- `publishPendingComments` (index.js:1763-1828): list the comments,
filter those with `pending === true`; if none, return the no-op message with
no further requests; otherwise PUT each pending comment with
`pending = false`, recording per-comment success or failure. -/
def publishPendingComments (env : PublishEnv) (workspace repo_slug : String)
    (pull_request_id : Nat) : List PubRequest × Except McpErr PublishResult :=
  match env.commentsValues with
  | .error e =>
      ([.getComments (commentsUrl workspace repo_slug pull_request_id)],
       .error (.internalError ("Failed to publish pending comments: " ++ e)))
  | .ok v =>
      let pendingComments := (v.getD []).filter fun c => c.pending == some true
      if pendingComments.length = 0 then
        ([.getComments (commentsUrl workspace repo_slug pull_request_id)],
         .ok (.noneFound "No pending comments found to publish."))
      else
        ([.getComments (commentsUrl workspace repo_slug pull_request_id)] ++
           pendingComments.map fun c =>
             PubRequest.putComment (commentUrl workspace repo_slug pull_request_id c.id) c.id,
         .ok (.published
           ("Published " ++ toString pendingComments.length ++ " pending comments")
           (pendingComments.map fun c =>
             match env.putResp c.id with
             | .ok d => ⟨c.id, true, d⟩
             | .error e => ⟨c.id, false, e⟩)))

/-- Is a request the comment-update PUT? -/
def isPutReq : PubRequest → Bool
  | .getComments _ => false
  | .putComment _ _ => true

/-- C8: on a pull request whose comment listing holds zero comments with
pending = true, publishPendingComments returns the no-op success message
and issues no comment-update (PUT) requests. -/
theorem publishPendingComments_noop
    (env : PublishEnv) (workspace repo_slug : String) (pull_request_id : Nat)
    (v : Option (List Comment))
    (hv : env.commentsValues = .ok v)
    (hp : (v.getD []).filter (fun c => c.pending == some true) = []) :
    (publishPendingComments env workspace repo_slug pull_request_id).2 =
      .ok (.noneFound "No pending comments found to publish.") ∧
    ((publishPendingComments env workspace repo_slug pull_request_id).1).filter isPutReq
      = [] := by
  unfold publishPendingComments
  rw [hv]
  simp [hp, isPutReq]

def publishEnvW : PublishEnv :=
  ⟨.ok (some [⟨5, some false, "looks fine", none⟩]), fun _ => .ok "updated"⟩

theorem publishPendingComments_noop_witness :
    (publishPendingComments publishEnvW "w" "r" 1).2 =
      .ok (.noneFound "No pending comments found to publish.") ∧
    ((publishPendingComments publishEnvW "w" "r" 1).1).filter isPutReq = [] :=
  publishPendingComments_noop publishEnvW "w" "r" 1
    (some [⟨5, some false, "looks fine", none⟩]) rfl rfl

/-- The POST body built by `createPullRequest` (index.js:1160-1176):
`source.branch.name` and `destination.branch.name` are flattened to the
two branch-name fields. -/
structure CreatePRBody where
  title : Option String
  description : Option String
  sourceBranchName : Option String
  targetBranchName : Option String
  reviewers : List String
  close_source_branch : Bool
  draft : Bool
deriving Repr, DecidableEq

structure CreatePRReq where
  url : String
  body : CreatePRBody
deriving Repr, DecidableEq

/-- The request built by `createPullRequest` (index.js:1146-1176):
`close_source_branch` is hard-coded `true`, and `draft` is `true` exactly
when the argument is `=== true`. -/
def createPullRequestRequest (workspace repo_slug : Option String)
    (title description sourceBranch targetBranch : Option String)
    (reviewers : Option (List String)) (draft : Option Bool) : CreatePRReq :=
  { url := "/repositories/" ++ jsTemplate workspace ++ "/" ++ jsTemplate repo_slug ++
      "/pullrequests",
    body := { title := title, description := description,
              sourceBranchName := sourceBranch, targetBranchName := targetBranch,
              reviewers := reviewers.getD [],
              close_source_branch := true,
              draft := draft == some true } }

/-- `createDraftPullRequest` (index.js:1829-1850) delegates to
`createPullRequest` with `draft = true`. -/
def createDraftPullRequestRequest (workspace repo_slug : Option String)
    (title description sourceBranch targetBranch : Option String)
    (reviewers : Option (List String)) : CreatePRReq :=
  createPullRequestRequest workspace repo_slug title description sourceBranch
    targetBranch reviewers (some true)

/-- C9: for every invocation of createPullRequest (and therefore also
createDraftPullRequest), the request body contains close_source_branch set
to true, regardless of the caller's arguments. -/
theorem createPullRequest_always_closes_source
    (workspace repo_slug title description sourceBranch targetBranch : Option String)
    (reviewers : Option (List String)) (draft : Option Bool) :
    (createPullRequestRequest workspace repo_slug title description sourceBranch
        targetBranch reviewers draft).body.close_source_branch = true ∧
    (createDraftPullRequestRequest workspace repo_slug title description sourceBranch
        targetBranch reviewers).body.close_source_branch = true :=
  ⟨rfl, rfl⟩

end BitbucketMcp
